import Mathlib

/-!
Verification development for the DADApy core: the BMTI regularized linear-system
assembly (`density_advanced.py`) and the differentiable information-imbalance
trainer (`diff_imbalance.py`).

The Python code is shallowly embedded: numpy/jax arrays become functions out of
`Fin n`, machine floats become real numbers, fallible configuration code becomes
boolean validation functions, and external collaborators (cython kernels, the
kstar-NN density estimator, scipy/optax numerical primitives) become function
parameters.
-/

open BigOperators

/-! ## BMTI linear-system assembly (density_advanced.py) -/

/-- The `delta_F_err` weighting mode of `_get_BMTI_reg_linear_system`.
`noErr` models the string value "none". Any other string raises a
`ValueError` in the source, so the valid modes form this three-value type. -/
inductive DeltaFErr
  | uncorr
  | LSDI
  | noErr
deriving DecidableEq

/-- The attributes of the `DensityAdvanced` object read by
`_get_BMTI_reg_linear_system`: the directed edge list `nind_list` (`nspar`
edges over `N` points), `kstar`, the per-edge log-density differences
`Fij_array` with variances `Fij_var_array`, the diagonal inverse
cross-covariance `inv_deltaFs_cov` (output of an external cython kernel), and
the prior `log_den` / `log_den_err`. -/
structure BMTIInput (N nspar : ℕ) where
  nindList : Fin nspar → Fin N × Fin N
  kstar : Fin N → ℝ
  FijArray : Fin nspar → ℝ
  FijVarArray : Fin nspar → ℝ
  invDeltaFsCov : Fin nspar → ℝ
  logDen : Fin N → ℝ
  logDenErr : Fin N → ℝ

/-- The per-edge weight vector `tmpvec` of `_get_BMTI_reg_linear_system`
(lines 353-372): `uncorr` is `1 / Fij_var / sqrt(kstar_i * kstar_j)`,
`LSDI` takes the diagonal inverse cross-covariance, `none` is all ones. -/
noncomputable def bmtiTmpvec {N nspar : ℕ} (d : BMTIInput N nspar) :
    DeltaFErr → Fin nspar → ℝ
  | DeltaFErr.uncorr => fun e =>
      1 / d.FijVarArray e /
        Real.sqrt (d.kstar (d.nindList e).1 * d.kstar (d.nindList e).2)
  | DeltaFErr.LSDI => d.invDeltaFsCov
  | DeltaFErr.noErr => fun _ => 1

/-- The sparse adjacency matrix `A = csr_matrix((-tmpvec, (nind_list[:,0],
nind_list[:,1])))` (lines 375-379): entry `(a,b)` sums `-tmpvec[e]` over the
edges `e` with `nind_list[e] = (a,b)`. -/
noncomputable def bmtiAdjacency {N nspar : ℕ} (d : BMTIInput N nspar)
    (mode : DeltaFErr) (a b : Fin N) : ℝ :=
  ∑ e, if d.nindList e = (a, b) then -bmtiTmpvec d mode e else 0

/-- The sparse matrix `supp_deltaF = csr_matrix((Fij_array * tmpvec, ...))`
(lines 382-386). -/
noncomputable def bmtiSuppDeltaF {N nspar : ℕ} (d : BMTIInput N nspar)
    (mode : DeltaFErr) (a b : Fin N) : ℝ :=
  ∑ e, if d.nindList e = (a, b) then d.FijArray e * bmtiTmpvec d mode e else 0

/-- The symmetrization `A = alpha * (A + A.transpose())` (line 389). -/
noncomputable def bmtiASym {N nspar : ℕ} (d : BMTIInput N nspar)
    (mode : DeltaFErr) (alpha : ℝ) (a b : Fin N) : ℝ :=
  alpha * (bmtiAdjacency d mode a b + bmtiAdjacency d mode b a)

/-- The diagonal `diag = -A.sum(axis=1) + (1-alpha)/log_den_err**2`
(lines 393-396). -/
noncomputable def bmtiDiag {N nspar : ℕ} (d : BMTIInput N nspar)
    (mode : DeltaFErr) (alpha : ℝ) (i : Fin N) : ℝ :=
  -(∑ j, bmtiASym d mode alpha i j) + (1 - alpha) / d.logDenErr i ^ 2

/-- The final matrix after `A.setdiag(diag)` (line 398). -/
noncomputable def bmtiA {N nspar : ℕ} (d : BMTIInput N nspar)
    (mode : DeltaFErr) (alpha : ℝ) (i j : Fin N) : ℝ :=
  if i = j then bmtiDiag d mode alpha i else bmtiASym d mode alpha i j

/-- The right-hand side `deltaFcum = alpha * (supp_deltaF.sum(axis=0)
- supp_deltaF.sum(axis=1)) + (1-alpha) * log_den / log_den_err**2`
(lines 400-407): column sums minus row sums of `supp_deltaF`. -/
noncomputable def bmtiDeltaFcum {N nspar : ℕ} (d : BMTIInput N nspar)
    (mode : DeltaFErr) (alpha : ℝ) (i : Fin N) : ℝ :=
  alpha * ((∑ a, bmtiSuppDeltaF d mode a i) - ∑ b, bmtiSuppDeltaF d mode i b)
    + (1 - alpha) * d.logDen i / d.logDenErr i ^ 2

/-- Embeds `_get_BMTI_reg_linear_system` (lines 352-409): returns the pair `(A,
deltaFcum)`. -/
noncomputable def getBMTIRegLinearSystem {N nspar : ℕ} (d : BMTIInput N nspar)
    (mode : DeltaFErr) (alpha : ℝ) : (Fin N → Fin N → ℝ) × (Fin N → ℝ) :=
  (bmtiA d mode alpha, bmtiDeltaFcum d mode alpha)

/-- The right-hand side as the words of claim C1 (and spec section 4.3) state
it: `alpha * (sum of w_e*Fij over directed edges leaving i, minus sum of
w_e*Fji over directed edges entering i) + (1-alpha)*prior/prior_err^2`.
Written from the claim's words, to be compared with `bmtiDeltaFcum`. -/
noncomputable def specClaimDeltaFcum {N nspar : ℕ} (d : BMTIInput N nspar)
    (mode : DeltaFErr) (alpha : ℝ) (i : Fin N) : ℝ :=
  alpha * ((∑ e, if (d.nindList e).1 = i
              then bmtiTmpvec d mode e * d.FijArray e else 0)
         - ∑ e, if (d.nindList e).2 = i
              then bmtiTmpvec d mode e * d.FijArray e else 0)
    + (1 - alpha) * d.logDen i / d.logDenErr i ^ 2

/-- A concrete two-point instance with the single directed edge `(0, 1)`,
unit Fij value and unit prior, used to evaluate the assembly. -/
noncomputable def sampleBMTIInput : BMTIInput 2 1 where
  nindList := fun _ => (0, 1)
  kstar := fun _ => 2
  FijArray := fun _ => 1
  FijVarArray := fun _ => 1
  invDeltaFsCov := fun _ => 1
  logDen := fun _ => 1
  logDenErr := fun _ => 1

/-- Column sums of `supp_deltaF` are sums over the directed edges entering
`i`. -/
theorem bmtiSuppDeltaF_col_sum {N nspar : ℕ} (d : BMTIInput N nspar)
    (mode : DeltaFErr) (i : Fin N) :
    (∑ a, bmtiSuppDeltaF d mode a i)
      = ∑ e, if (d.nindList e).2 = i
          then d.FijArray e * bmtiTmpvec d mode e else 0 := by
  unfold bmtiSuppDeltaF
  rw [Finset.sum_comm]
  refine Finset.sum_congr rfl fun e _ => ?_
  rcases h : d.nindList e with ⟨x, y⟩
  by_cases hy : y = i
  · subst hy
    simp [h, Prod.ext_iff, Finset.sum_ite_eq]
  · simp [h, Prod.ext_iff, hy]

/-- Row sums of `supp_deltaF` are sums over the directed edges leaving `i`. -/
theorem bmtiSuppDeltaF_row_sum {N nspar : ℕ} (d : BMTIInput N nspar)
    (mode : DeltaFErr) (i : Fin N) :
    (∑ b, bmtiSuppDeltaF d mode i b)
      = ∑ e, if (d.nindList e).1 = i
          then d.FijArray e * bmtiTmpvec d mode e else 0 := by
  unfold bmtiSuppDeltaF
  rw [Finset.sum_comm]
  refine Finset.sum_congr rfl fun e _ => ?_
  rcases h : d.nindList e with ⟨x, y⟩
  by_cases hx : x = i
  · subst hx
    simp [h, Prod.ext_iff, Finset.sum_ite_eq]
  · simp [h, Prod.ext_iff, hx]

/-- Claim C2: for every weighting mode and every `alpha`, the matrix `A`
returned by `_get_BMTI_reg_linear_system` is symmetric. -/
theorem bmti_A_symmetric {N nspar : ℕ} (d : BMTIInput N nspar)
    (mode : DeltaFErr) (alpha : ℝ) (i j : Fin N) :
    (getBMTIRegLinearSystem d mode alpha).1 i j
      = (getBMTIRegLinearSystem d mode alpha).1 j i := by
  unfold getBMTIRegLinearSystem bmtiA bmtiASym
  by_cases hij : i = j
  · subst hij; rfl
  · simp only [hij, Ne.symm hij, if_false]
    ring

/-- Claim C1 (amended): the right-hand side assembled by
`_get_BMTI_reg_linear_system` is `b[i] = alpha * (sum of w_e*Fji over directed
edges entering i, minus sum of w_e*Fij over directed edges leaving i)
+ (1-alpha)*prior_logdensity[i]/prior_err[i]^2` — the graph term is the sum
over entering edges minus the sum over leaving edges, the opposite order to
the one the claim states. -/
theorem bmti_rhs_entering_minus_leaving {N nspar : ℕ} (d : BMTIInput N nspar)
    (mode : DeltaFErr) (alpha : ℝ) (i : Fin N) :
    (getBMTIRegLinearSystem d mode alpha).2 i
      = alpha * ((∑ e, if (d.nindList e).2 = i
                    then bmtiTmpvec d mode e * d.FijArray e else 0)
               - ∑ e, if (d.nindList e).1 = i
                    then bmtiTmpvec d mode e * d.FijArray e else 0)
        + (1 - alpha) * d.logDen i / d.logDenErr i ^ 2 := by
  show bmtiDeltaFcum d mode alpha i = _
  unfold bmtiDeltaFcum
  rw [bmtiSuppDeltaF_col_sum, bmtiSuppDeltaF_row_sum]
  have h2 : (∑ e, if (d.nindList e).2 = i
        then d.FijArray e * bmtiTmpvec d mode e else 0)
      = ∑ e, if (d.nindList e).2 = i
          then bmtiTmpvec d mode e * d.FijArray e else 0 :=
    Finset.sum_congr rfl fun e _ => by split <;> ring
  have h1 : (∑ e, if (d.nindList e).1 = i
        then d.FijArray e * bmtiTmpvec d mode e else 0)
      = ∑ e, if (d.nindList e).1 = i
          then bmtiTmpvec d mode e * d.FijArray e else 0 :=
    Finset.sum_congr rfl fun e _ => by split <;> ring
  rw [h2, h1]

/-- Counterexample to claim C1 as stated: on the two-point instance with the
single edge `(0, 1)`, weight 1 and `Fij = 1`, at `alpha = 1`, the code's
right-hand side at point 0 is `-1` while the claim's formula (leaving minus
entering) gives `+1`. -/
theorem bmti_rhs_claim_counterexample :
    (getBMTIRegLinearSystem sampleBMTIInput DeltaFErr.noErr 1).2 0
      ≠ specClaimDeltaFcum sampleBMTIInput DeltaFErr.noErr 1 0 := by
  have hL : (getBMTIRegLinearSystem sampleBMTIInput DeltaFErr.noErr 1).2 0
      = -1 := by
    show bmtiDeltaFcum sampleBMTIInput DeltaFErr.noErr 1 0 = -1
    unfold bmtiDeltaFcum bmtiSuppDeltaF bmtiTmpvec sampleBMTIInput
    norm_num [Fin.sum_univ_two, Fin.sum_univ_one, Prod.ext_iff]
  have hR : specClaimDeltaFcum sampleBMTIInput DeltaFErr.noErr 1 0 = 1 := by
    unfold specClaimDeltaFcum bmtiTmpvec sampleBMTIInput
    norm_num [Fin.sum_univ_one]
  rw [hL, hR]
  norm_num

/-- Entries of the sparse adjacency matrix are non-positive when all edge
weights are non-negative. -/
theorem bmtiAdjacency_nonpos {N nspar : ℕ} (d : BMTIInput N nspar)
    (mode : DeltaFErr) (hw : ∀ e, 0 ≤ bmtiTmpvec d mode e) (a b : Fin N) :
    bmtiAdjacency d mode a b ≤ 0 := by
  refine Finset.sum_nonpos fun e _ => ?_
  split
  · simpa using hw e
  · exact le_refl 0

/-- Off-diagonal entries of the symmetrized matrix are non-positive when
`0 ≤ alpha` and all edge weights are non-negative. -/
theorem bmtiASym_nonpos {N nspar : ℕ} (d : BMTIInput N nspar)
    (mode : DeltaFErr) (alpha : ℝ) (h0 : 0 ≤ alpha)
    (hw : ∀ e, 0 ≤ bmtiTmpvec d mode e) (a b : Fin N) :
    bmtiASym d mode alpha a b ≤ 0 :=
  mul_nonpos_of_nonneg_of_nonpos h0
    (add_nonpos (bmtiAdjacency_nonpos d mode hw a b)
      (bmtiAdjacency_nonpos d mode hw b a))

/-- Claim C3: for `0 ≤ alpha < 1`, non-negative per-edge weights (as produced
by strictly positive Fij variances) and nonzero prior errors, the matrix `A`
returned by `_get_BMTI_reg_linear_system` is diagonally dominant: for every
row `i`, `A[i,i]` is at least the sum over `j ≠ i` of `|A[i,j]|`. -/
theorem bmti_A_diag_dominant {N nspar : ℕ} (d : BMTIInput N nspar)
    (mode : DeltaFErr) (alpha : ℝ) (h0 : 0 ≤ alpha) (h1 : alpha < 1)
    (hw : ∀ e, 0 ≤ bmtiTmpvec d mode e) (herr : ∀ i, d.logDenErr i ≠ 0)
    (i : Fin N) :
    ∑ j ∈ Finset.univ.erase i, |(getBMTIRegLinearSystem d mode alpha).1 i j|
      ≤ (getBMTIRegLinearSystem d mode alpha).1 i i := by
  have hA : ∀ j, j ≠ i →
      |(getBMTIRegLinearSystem d mode alpha).1 i j|
        = -bmtiASym d mode alpha i j := by
    intro j hj
    show |bmtiA d mode alpha i j| = _
    unfold bmtiA
    rw [if_neg (Ne.symm hj)]
    exact abs_of_nonpos (bmtiASym_nonpos d mode alpha h0 hw i j)
  have hsum : ∑ j ∈ Finset.univ.erase i,
      |(getBMTIRegLinearSystem d mode alpha).1 i j|
        = -∑ j ∈ Finset.univ.erase i, bmtiASym d mode alpha i j := by
    rw [← Finset.sum_neg_distrib]
    exact Finset.sum_congr rfl fun j hj => hA j (Finset.ne_of_mem_erase hj)
  have hii : (getBMTIRegLinearSystem d mode alpha).1 i i
      = bmtiDiag d mode alpha i := by
    show bmtiA d mode alpha i i = _
    unfold bmtiA
    rw [if_pos rfl]
  rw [hsum, hii]
  unfold bmtiDiag
  have hsplit : (∑ j, bmtiASym d mode alpha i j)
      = bmtiASym d mode alpha i i
        + ∑ j ∈ Finset.univ.erase i, bmtiASym d mode alpha i j :=
    (Finset.add_sum_erase Finset.univ _ (Finset.mem_univ i)).symm
  rw [hsplit]
  have hprior : 0 ≤ (1 - alpha) / d.logDenErr i ^ 2 :=
    div_nonneg (by linarith) (sq_nonneg _)
  have hself : bmtiASym d mode alpha i i ≤ 0 :=
    bmtiASym_nonpos d mode alpha h0 hw i i
  linarith

/-- Witness for claim C3 at the concrete two-point instance, mode "none",
`alpha = 1/2`. -/
theorem bmti_A_diag_dominant_witness :
    ∑ j ∈ Finset.univ.erase (0 : Fin 2),
        |(getBMTIRegLinearSystem sampleBMTIInput DeltaFErr.noErr (1/2)).1 0 j|
      ≤ (getBMTIRegLinearSystem sampleBMTIInput DeltaFErr.noErr (1/2)).1 0 0 :=
  bmti_A_diag_dominant sampleBMTIInput DeltaFErr.noErr (1/2)
    (by norm_num) (by norm_num)
    (fun e => by simp [bmtiTmpvec])
    (fun i => by simp [sampleBMTIInput]) 0

/-! ## BMTI density estimation entry points (density_advanced.py)

The lazily-computed collaborator stages (`compute_deltaFs`, the kstar-NN
prior `compute_density_kstarNN`, `compute_deltaFs_inv_cross_covariance`) and
the numerical solve/inversion primitives (`np.linalg.solve`,
`sparse.linalg.spsolve`, `scipy.linalg.pinvh`) rest on external cython/scipy
kernels, so they enter the embedding as function parameters acting on the
shared mutable state. -/

/-- The mutable `DensityAdvanced` state touched by the BMTI entry points.
Fields that start as `None` and are filled lazily are `Option`s. -/
structure DAState (N nspar : ℕ) where
  nindList : Fin nspar → Fin N × Fin N
  kstar : Fin N → ℝ
  FijArray : Option (Fin nspar → ℝ)
  FijVarArray : Option (Fin nspar → ℝ)
  invDeltaFsCov : Option (Fin nspar → ℝ)
  logDen : Option (Fin N → ℝ)
  logDenErr : Option (Fin N → ℝ)

/-- The attribute reads performed by `_get_BMTI_reg_linear_system` on the
state (all the `Option` fields are set at that point in every run that does
not raise). -/
noncomputable def DAState.toBMTIInput {N nspar : ℕ} (s : DAState N nspar) :
    BMTIInput N nspar where
  nindList := s.nindList
  kstar := s.kstar
  FijArray := s.FijArray.getD fun _ => 0
  FijVarArray := s.FijVarArray.getD fun _ => 0
  invDeltaFsCov := s.invDeltaFsCov.getD fun _ => 0
  logDen := s.logDen.getD fun _ => 0
  logDenErr := s.logDenErr.getD fun _ => 0

/-- Embeds `_get_BMTI_reg_linear_system` at the state level: the "LSDI" branch first
calls `compute_deltaFs_inv_cross_covariance` (modelled by the oracle
`invCovOracle`, an external cython kernel), mutating the state. -/
noncomputable def getBMTIRegLinearSystemS {N nspar : ℕ}
    (invCovOracle : DAState N nspar → DAState N nspar)
    (s : DAState N nspar) (mode : DeltaFErr) (alpha : ℝ) :
    DAState N nspar × ((Fin N → Fin N → ℝ) × (Fin N → ℝ)) :=
  let s1 := match mode with
    | DeltaFErr.LSDI => invCovOracle s
    | _ => s
  (s1, getBMTIRegLinearSystem s1.toBMTIInput mode alpha)

/-- Embeds `_solve_BMTI_reg_linar_system` (lines 411-417): dense solve, or sparse
solve when `mem_efficient` is selected; the two numerical solvers are external
primitives passed as parameters. -/
noncomputable def solveBMTIRegLinarSystem {N : ℕ}
    (denseSolve spSolve : (Fin N → Fin N → ℝ) → (Fin N → ℝ) → (Fin N → ℝ))
    (A : Fin N → Fin N → ℝ) (b : Fin N → ℝ) (memEfficient : Bool) :
    Fin N → ℝ :=
  if memEfficient = false then denseSolve A b else spSolve A b

/-- Embeds `compute_density_BMTI_reg` (lines 284-348): lazily fill `Fij_array`, set
the prior (from the arguments, or from the kstar-NN estimator when either is
`None`), assemble the linear system, solve it into `log_den`, and optionally
set `log_den_err` from the diagonal of the pseudo-inverse of `A`. -/
noncomputable def computeDensityBMTIReg {N nspar : ℕ}
    (deltaFsOracle kstarNNOracle invCovOracle : DAState N nspar → DAState N nspar)
    (denseSolve spSolve : (Fin N → Fin N → ℝ) → (Fin N → ℝ) → (Fin N → ℝ))
    (pinvh : (Fin N → Fin N → ℝ) → (Fin N → Fin N → ℝ))
    (alpha : ℝ) (logDen logDenErr : Option (Fin N → ℝ)) (deltaFErr : DeltaFErr)
    (compLogDenErr memEfficient : Bool) (s : DAState N nspar) :
    DAState N nspar :=
  let s1 := match s.FijArray with
    | Option.none => deltaFsOracle s
    | some _ => s
  let s2 := match logDen, logDenErr with
    | some den, some derr => { s1 with logDen := some den, logDenErr := some derr }
    | _, _ => kstarNNOracle s1
  let r := getBMTIRegLinearSystemS invCovOracle s2 deltaFErr alpha
  let ld := solveBMTIRegLinarSystem denseSolve spSolve r.2.1 r.2.2 memEfficient
  let s4 := { r.1 with logDen := some ld }
  if compLogDenErr = true then
    { s4 with logDenErr := some fun i => Real.sqrt (pinvh r.2.1 i i) }
  else s4

/-- Embeds `compute_density_BMTI` (lines 254-279): calls `compute_density_BMTI_reg`
with `alpha = 1` and `log_den`, `log_den_err` arrays of ones. -/
noncomputable def computeDensityBMTI {N nspar : ℕ}
    (deltaFsOracle kstarNNOracle invCovOracle : DAState N nspar → DAState N nspar)
    (denseSolve spSolve : (Fin N → Fin N → ℝ) → (Fin N → ℝ) → (Fin N → ℝ))
    (pinvh : (Fin N → Fin N → ℝ) → (Fin N → Fin N → ℝ))
    (deltaFErr : DeltaFErr) (compLogDenErr memEfficient : Bool)
    (s : DAState N nspar) : DAState N nspar :=
  computeDensityBMTIReg deltaFsOracle kstarNNOracle invCovOracle denseSolve
    spSolve pinvh 1 (some fun _ => 1) (some fun _ => 1) deltaFErr
    compLogDenErr memEfficient s

/-- Claim C4: for every weighting mode, error flag and memory flag (and every
behaviour of the external collaborator stages), `compute_density_BMTI`
produces exactly the state produced by `compute_density_BMTI_reg` called with
`alpha = 1.0` and all-ones `log_den` and `log_den_err`. -/
theorem bmti_is_reg_with_uniform_prior {N nspar : ℕ}
    (deltaFsOracle kstarNNOracle invCovOracle : DAState N nspar → DAState N nspar)
    (denseSolve spSolve : (Fin N → Fin N → ℝ) → (Fin N → ℝ) → (Fin N → ℝ))
    (pinvh : (Fin N → Fin N → ℝ) → (Fin N → Fin N → ℝ))
    (deltaFErr : DeltaFErr) (compLogDenErr memEfficient : Bool)
    (s : DAState N nspar) :
    computeDensityBMTI deltaFsOracle kstarNNOracle invCovOracle denseSolve
        spSolve pinvh deltaFErr compLogDenErr memEfficient s
      = computeDensityBMTIReg deltaFsOracle kstarNNOracle invCovOracle
          denseSolve spSolve pinvh 1 (some fun _ => 1) (some fun _ => 1)
          deltaFErr compLogDenErr memEfficient s := rfl

/-! ## Differentiable information imbalance (diff_imbalance.py) -/

/-- Embeds `_compute_dist2_matrix_scaling` (lines 38-62): feature-weighted squared
Euclidean distances between `batch_rows` and `batch_columns`, with periodic
boundary corrections on the features whose period is nonzero. (`jnp.round`
rounds halves to even; `round` rounds halves up — the difference is invisible
to every claim below.) -/
noncomputable def computeDist2MatrixScaling (nr nc dA : ℕ)
    (params : Fin dA → ℝ) (batchRows : Fin nr → Fin dA → ℝ)
    (batchColumns : Fin nc → Fin dA → ℝ) (periods : Option (Fin dA → ℝ))
    (p : Fin nr) (q : Fin nc) : ℝ :=
  ∑ f, (params f *
    (match periods with
     | Option.none => batchRows p f - batchColumns q f
     | some per =>
         batchRows p f - batchColumns q f -
           (if per f = 0 then 0 else 1) *
             ((round ((batchRows p f - batchColumns q f) / per f) : ℤ) : ℝ)
             * per f)) ^ 2

/-- The distance matrix of `_compute_diff_imbalance` after the self-distance
masking (lines 408-420): when `compute_error` is false the entry at column
`batch_indices[p]` of row `p` is set to `1e10`. -/
noncomputable def diiDist2Masked (nr nc dA : ℕ) (periodsA : Option (Fin dA → ℝ))
    (computeError : Bool) (params : Fin dA → ℝ)
    (batchARows : Fin nr → Fin dA → ℝ) (batchAColumns : Fin nc → Fin dA → ℝ)
    (batchIndices : Fin nr → Fin nc) (p : Fin nr) (q : Fin nc) : ℝ :=
  if computeError = false ∧ q = batchIndices p then (10 : ℝ) ^ 10
  else computeDist2MatrixScaling nr nc dA params batchARows batchAColumns
    periodsA p q

/-- A row of `jax.nn.softmax(x, axis=1)` in exact arithmetic:
`exp (x q) / ∑ r, exp (x r)`. -/
noncomputable def softmaxRow (n : ℕ) (x : Fin n → ℝ) (q : Fin n) : ℝ :=
  Real.exp (x q) / ∑ r, Real.exp (x r)

/-- Row `p` of the `c_matrix` of `_compute_diff_imbalance` (lines 424-426):
softmax of `-dist2 / lambda[p]` along the columns. -/
noncomputable def diiCRow (nr nc : ℕ) (dist2Masked : Fin nr → Fin nc → ℝ)
    (lambdas : Fin nr → ℝ) (p : Fin nr) (q : Fin nc) : ℝ :=
  softmaxRow nc (fun r => -dist2Masked p r / lambdas p) q

/-- Embeds `jnp.std(x, ddof=1)`: the square root of the Bessel-corrected sample
variance. -/
noncomputable def stdSample (n : ℕ) (x : Fin n → ℝ) : ℝ :=
  Real.sqrt ((∑ p, (x p - (∑ r, x r) / n) ^ 2) / (n - 1))

/-- Embeds `_compute_diff_imbalance` (lines 387-437): weighted distances, masking,
smoothing parameters from the active lambda method (an attribute holding a
function, passed here as the parameter `lambdaMethod`), softmax kernel, and
the DII value with its standard error. -/
noncomputable def computeDiffImbalance (nr nc dA : ℕ)
    (periodsA : Option (Fin dA → ℝ)) (computeError : Bool) (maxRank : ℕ)
    (lambdaMethod : (Fin nr → Fin nc → ℝ) → ℕ → Fin nr → ℝ)
    (params : Fin dA → ℝ) (batchARows : Fin nr → Fin dA → ℝ)
    (batchAColumns : Fin nc → Fin dA → ℝ)
    (batchBRanks : Fin nr → Fin nc → ℝ) (step : ℕ)
    (batchIndices : Fin nr → Fin nc) : ℝ × ℝ :=
  let dist2M := diiDist2Masked nr nc dA periodsA computeError params
    batchARows batchAColumns batchIndices
  let lambdas := lambdaMethod dist2M step
  let conditionalRanks := fun p =>
    ∑ q, batchBRanks p q * diiCRow nr nc dist2M lambdas p q
  (2 / ((maxRank : ℝ) + 1) * (∑ p, conditionalRanks p) / nr,
   2 / ((maxRank : ℝ) + 1) * stdSample nr conditionalRanks / Real.sqrt nr)

/-- Softmax entries are non-negative. -/
theorem softmaxRow_nonneg (n : ℕ) (x : Fin n → ℝ) (q : Fin n) :
    0 ≤ softmaxRow n x q :=
  div_nonneg (Real.exp_pos (x q)).le
    (Finset.sum_nonneg fun r _ => (Real.exp_pos (x r)).le)

/-- Each softmax row sums to at most one (to exactly one when there is at
least one column; to zero on an empty row). -/
theorem sum_softmaxRow_le_one (n : ℕ) (x : Fin n → ℝ) :
    ∑ q, softmaxRow n x q ≤ 1 := by
  rcases Nat.eq_zero_or_pos n with h | h
  · subst h
    simp [softmaxRow]
  · have hpos : 0 < ∑ r, Real.exp (x r) :=
      Finset.sum_pos (fun r _ => Real.exp_pos (x r))
        ⟨⟨0, h⟩, Finset.mem_univ _⟩
    unfold softmaxRow
    rw [← Finset.sum_div, div_self (ne_of_gt hpos)]

/-- A softmax-weighted combination of values in `[0, M]` lies in `[0, M]`. -/
theorem weighted_softmax_bound (n : ℕ) (x : Fin n → ℝ) (r : Fin n → ℝ)
    (M : ℝ) (hM : 0 ≤ M) (h0 : ∀ q, 0 ≤ r q) (h1 : ∀ q, r q ≤ M) :
    0 ≤ ∑ q, r q * softmaxRow n x q ∧ ∑ q, r q * softmaxRow n x q ≤ M := by
  constructor
  · exact Finset.sum_nonneg fun q _ =>
      mul_nonneg (h0 q) (softmaxRow_nonneg n x q)
  · calc ∑ q, r q * softmaxRow n x q
        ≤ ∑ q, M * softmaxRow n x q :=
          Finset.sum_le_sum fun q _ =>
            mul_le_mul_of_nonneg_right (h1 q) (softmaxRow_nonneg n x q)
      _ = M * ∑ q, softmaxRow n x q := by rw [Finset.mul_sum]
      _ ≤ M * 1 := mul_le_mul_of_nonneg_left (sum_softmaxRow_le_one n x) hM
      _ = M := mul_one M

/-- Claim C9: for every weight vector, batch, step, lambda method and
configuration, if the target rank entries lie in `[0, max_rank]` (as
`_compute_rank_matrix_B` produces) then the DII value returned by
`_compute_diff_imbalance` lies in `[0, 2*max_rank/(max_rank+1)]`, and in
particular is non-negative and strictly below 2. -/
theorem diff_imbalance_bounds (nr nc dA : ℕ)
    (periodsA : Option (Fin dA → ℝ)) (computeError : Bool) (maxRank : ℕ)
    (lambdaMethod : (Fin nr → Fin nc → ℝ) → ℕ → Fin nr → ℝ)
    (params : Fin dA → ℝ) (batchARows : Fin nr → Fin dA → ℝ)
    (batchAColumns : Fin nc → Fin dA → ℝ)
    (batchBRanks : Fin nr → Fin nc → ℝ) (step : ℕ)
    (batchIndices : Fin nr → Fin nc)
    (hn : 0 < nr) (hr0 : ∀ p q, 0 ≤ batchBRanks p q)
    (hr1 : ∀ p q, batchBRanks p q ≤ (maxRank : ℝ)) :
    0 ≤ (computeDiffImbalance nr nc dA periodsA computeError maxRank
          lambdaMethod params batchARows batchAColumns batchBRanks step
          batchIndices).1 ∧
      (computeDiffImbalance nr nc dA periodsA computeError maxRank
          lambdaMethod params batchARows batchAColumns batchBRanks step
          batchIndices).1 ≤ 2 * (maxRank : ℝ) / ((maxRank : ℝ) + 1) ∧
      (computeDiffImbalance nr nc dA periodsA computeError maxRank
          lambdaMethod params batchARows batchAColumns batchBRanks step
          batchIndices).1 < 2 := by
  have hM : (0 : ℝ) ≤ (maxRank : ℝ) := Nat.cast_nonneg maxRank
  have hM1 : (0 : ℝ) < (maxRank : ℝ) + 1 := by linarith
  have hnr : (0 : ℝ) < (nr : ℝ) := by exact_mod_cast hn
  set dist2M := diiDist2Masked nr nc dA periodsA computeError params
    batchARows batchAColumns batchIndices with hdist
  set lambdas := lambdaMethod dist2M step with hlam
  have hrow : ∀ p : Fin nr,
      0 ≤ (∑ q, batchBRanks p q * diiCRow nr nc dist2M lambdas p q) ∧
      (∑ q, batchBRanks p q * diiCRow nr nc dist2M lambdas p q)
        ≤ (maxRank : ℝ) := fun p =>
    weighted_softmax_bound nc (fun r => -dist2M p r / lambdas p)
      (batchBRanks p) (maxRank : ℝ) hM (hr0 p) (hr1 p)
  have hS0 : 0 ≤ ∑ p, ∑ q, batchBRanks p q * diiCRow nr nc dist2M lambdas p q :=
    Finset.sum_nonneg fun p _ => (hrow p).1
  have hS1 : (∑ p, ∑ q, batchBRanks p q * diiCRow nr nc dist2M lambdas p q)
      ≤ (nr : ℝ) * (maxRank : ℝ) := by
    calc (∑ p, ∑ q, batchBRanks p q * diiCRow nr nc dist2M lambdas p q)
        ≤ ∑ _p : Fin nr, (maxRank : ℝ) :=
          Finset.sum_le_sum fun p _ => (hrow p).2
      _ = (nr : ℝ) * (maxRank : ℝ) := by
          rw [Finset.sum_const, Finset.card_univ, Fintype.card_fin,
            nsmul_eq_mul]
  have hfst : (computeDiffImbalance nr nc dA periodsA computeError maxRank
      lambdaMethod params batchARows batchAColumns batchBRanks step
      batchIndices).1
      = 2 / ((maxRank : ℝ) + 1)
        * (∑ p, ∑ q, batchBRanks p q * diiCRow nr nc dist2M lambdas p q)
        / nr := rfl
  rw [hfst]
  have hc : (0 : ℝ) ≤ 2 / ((maxRank : ℝ) + 1) := by positivity
  refine ⟨by positivity, ?_, ?_⟩
  · have hstep : 2 / ((maxRank : ℝ) + 1)
        * (∑ p, ∑ q, batchBRanks p q * diiCRow nr nc dist2M lambdas p q)
        ≤ 2 / ((maxRank : ℝ) + 1) * ((nr : ℝ) * (maxRank : ℝ)) :=
      mul_le_mul_of_nonneg_left hS1 hc
    have hdiv := (div_le_div_right hnr).mpr hstep
    calc 2 / ((maxRank : ℝ) + 1)
          * (∑ p, ∑ q, batchBRanks p q * diiCRow nr nc dist2M lambdas p q)
          / nr
        ≤ 2 / ((maxRank : ℝ) + 1) * ((nr : ℝ) * (maxRank : ℝ)) / nr := hdiv
      _ = 2 * (maxRank : ℝ) / ((maxRank : ℝ) + 1) := by
          field_simp
          ring
  · have hlt : 2 * (maxRank : ℝ) / ((maxRank : ℝ) + 1) < 2 := by
      rw [div_lt_iff₀ hM1]
      linarith
    have hle : 2 / ((maxRank : ℝ) + 1)
        * (∑ p, ∑ q, batchBRanks p q * diiCRow nr nc dist2M lambdas p q)
        / nr ≤ 2 * (maxRank : ℝ) / ((maxRank : ℝ) + 1) := by
      have hstep : 2 / ((maxRank : ℝ) + 1)
          * (∑ p, ∑ q, batchBRanks p q * diiCRow nr nc dist2M lambdas p q)
          ≤ 2 / ((maxRank : ℝ) + 1) * ((nr : ℝ) * (maxRank : ℝ)) :=
        mul_le_mul_of_nonneg_left hS1 hc
      have hdiv := (div_le_div_right hnr).mpr hstep
      calc 2 / ((maxRank : ℝ) + 1)
            * (∑ p, ∑ q, batchBRanks p q * diiCRow nr nc dist2M lambdas p q)
            / nr
          ≤ 2 / ((maxRank : ℝ) + 1) * ((nr : ℝ) * (maxRank : ℝ)) / nr := hdiv
        _ = 2 * (maxRank : ℝ) / ((maxRank : ℝ) + 1) := by
            field_simp
            ring
    linarith

/-- Witness for claim C9 on a one-point, one-feature batch with rank matrix 0
and `max_rank = 0`. -/
theorem diff_imbalance_bounds_witness :
    0 ≤ (computeDiffImbalance 1 1 1 Option.none false 0 (fun _ _ _ => 1)
          (fun _ => 1) (fun _ _ => 0) (fun _ _ => 0) (fun _ _ => 0) 0
          (fun _ => 0)).1 ∧
      (computeDiffImbalance 1 1 1 Option.none false 0 (fun _ _ _ => 1)
          (fun _ => 1) (fun _ _ => 0) (fun _ _ => 0) (fun _ _ => 0) 0
          (fun _ => 0)).1 ≤ 2 * ((0 : ℕ) : ℝ) / (((0 : ℕ) : ℝ) + 1) ∧
      (computeDiffImbalance 1 1 1 Option.none false 0 (fun _ _ _ => 1)
          (fun _ => 1) (fun _ _ => 0) (fun _ _ => 0) (fun _ _ => 0) 0
          (fun _ => 0)).1 < 2 :=
  diff_imbalance_bounds 1 1 1 Option.none false 0 (fun _ _ _ => 1)
    (fun _ => 1) (fun _ _ => 0) (fun _ _ => 0) (fun _ _ => 0) 0
    (fun _ => 0) (by norm_num) (fun p q => le_refl 0)
    (fun p q => by norm_num)

/-- Embeds `_cosine_decay_func` (lines 310-327): `x = pi / (num_epochs *
batches_per_epoch) * step`, value `(start - final) * (cos x + 1) / 2 +
final`. -/
noncomputable def cosineDecayFunc (numEpochs batchesPerEpoch : ℕ)
    (startValue finalValue : ℝ) (step : ℕ) : ℝ :=
  (startValue - finalValue)
      * (Real.cos (Real.pi / ((numEpochs : ℝ) * (batchesPerEpoch : ℝ))
          * (step : ℝ)) + 1) / 2
    + finalValue

/-- Embeds `_compute_lambda_decay` (lines 370-385): the fixed-global smoothing
scheme; the cosine-decayed scalar broadcast to all rows (the distance matrix
argument is only read for its shape). -/
noncomputable def computeLambdaDecay (nr nc numEpochs batchesPerEpoch : ℕ)
    (lambdaInit lambdaFinal : ℝ) (dist2Matrix : Fin nr → Fin nc → ℝ)
    (step : ℕ) : Fin nr → ℝ :=
  fun _ => cosineDecayFunc numEpochs batchesPerEpoch lambdaInit lambdaFinal step

/-- The training state threaded through `_train_step`: the parameter vector
and the step counter (`flax` `TrainState`; its optimizer internals are
external and folded into the abstract update function below). -/
structure TrainStateM (P : Type) where
  params : P
  step : ℕ

/-- One `_train_step` (lines 439-485) at the state-threading level: the loss
(and hence the smoothing parameter) is evaluated at the incoming `state.step`,
and `apply_gradients` increments the counter by one; the gradient, optimizer
and L1-proximal arithmetic are the external jax/optax primitives folded into
`upd`. -/
def trainStepModel (P : Type) (upd : P → ℕ → P) (s : TrainStateM P) :
    TrainStateM P :=
  { params := upd s.params s.step, step := s.step + 1 }

/-- After `m` train steps from a state with counter `c`, the counter is
`c + m`; so the `m`-th gradient-descent step (0-indexed) is evaluated at step
counter `m` when training starts from a fresh counter. -/
theorem trainStepModel_iterate_step (P : Type) (upd : P → ℕ → P)
    (s0 : TrainStateM P) (m : ℕ) :
    ((trainStepModel P upd)^[m] s0).step = s0.step + m := by
  induction m with
  | zero => simp
  | succ k ih =>
      rw [Function.iterate_succ_apply', trainStepModel]
      simp [ih]
      omega

/-- Claim C5 (amended): with `T = num_epochs * batches_per_epoch ≥ 1` total
gradient-descent steps, the first step sees counter 0 and its fixed-global
lambda equals `lambda_init` exactly; the last step sees counter `T - 1`, and
the cosine schedule attains `lambda_final` exactly at counter `T` — one past
the last step actually taken, so the lambda used at the last step in general
differs from `lambda_final`. -/
theorem lambda_decay_endpoints (P : Type) (upd : P → ℕ → P)
    (s0 : TrainStateM P) (hs0 : s0.step = 0)
    (numEpochs batchesPerEpoch : ℕ) (hT : 1 ≤ numEpochs * batchesPerEpoch)
    (lambdaInit lambdaFinal : ℝ) (nr nc : ℕ)
    (dist2Matrix : Fin nr → Fin nc → ℝ) (p : Fin nr) :
    computeLambdaDecay nr nc numEpochs batchesPerEpoch lambdaInit lambdaFinal
        dist2Matrix (((trainStepModel P upd)^[0] s0).step) p = lambdaInit ∧
      ((trainStepModel P upd)^[numEpochs * batchesPerEpoch - 1] s0).step
        = numEpochs * batchesPerEpoch - 1 ∧
      cosineDecayFunc numEpochs batchesPerEpoch lambdaInit lambdaFinal
        (numEpochs * batchesPerEpoch) = lambdaFinal := by
  refine ⟨?_, ?_, ?_⟩
  · rw [Function.iterate_zero_apply, hs0]
    unfold computeLambdaDecay cosineDecayFunc
    simp
    ring
  · rw [trainStepModel_iterate_step, hs0, Nat.zero_add]
  · unfold cosineDecayFunc
    have hTne : ((numEpochs : ℝ) * (batchesPerEpoch : ℝ)) ≠ 0 := by
      have : (0 : ℕ) < numEpochs * batchesPerEpoch := hT
      have h2 : ((numEpochs * batchesPerEpoch : ℕ) : ℝ) ≠ 0 := by
        exact_mod_cast Nat.pos_iff_ne_zero.mp this
      push_cast at h2
      exact h2
    have hx : Real.pi / ((numEpochs : ℝ) * (batchesPerEpoch : ℝ))
        * ((numEpochs * batchesPerEpoch : ℕ) : ℝ) = Real.pi := by
      push_cast
      field_simp
    rw [hx, Real.cos_pi]
    ring

/-- Witness for claim C5 (amended) at `num_epochs = 2`,
`batches_per_epoch = 3`, `lambda_init = 5`, `lambda_final = 2`. -/
theorem lambda_decay_endpoints_witness :
    computeLambdaDecay 1 1 2 3 5 2 (fun _ _ => 0)
        (((trainStepModel ℝ (fun w _ => w))^[0] ⟨0, 0⟩).step) 0 = 5 ∧
      ((trainStepModel ℝ (fun w _ => w))^[2 * 3 - 1]
          (⟨0, 0⟩ : TrainStateM ℝ)).step = 2 * 3 - 1 ∧
      cosineDecayFunc 2 3 5 2 (2 * 3) = 2 :=
  lambda_decay_endpoints ℝ (fun w _ => w) ⟨0, 0⟩ rfl 2 3 (by norm_num)
    5 2 1 1 (fun _ _ => 0) 0

/-- Counterexample to claim C5 as stated: with `num_epochs = 1` and
`batches_per_epoch = 1` the single (hence last) gradient-descent step starts
from the freshly created state, whose counter is 0, and the fixed-global
lambda it uses is `lambda_init = 1`, not `lambda_final = 0`. -/
theorem lambda_final_step_counterexample :
    computeLambdaDecay 1 1 1 1 1 0 (fun _ _ => 0)
        (TrainStateM.step ⟨(0 : ℝ), 0⟩) 0 = 1 ∧ (1 : ℝ) ≠ 0 := by
  constructor
  · unfold computeLambdaDecay cosineDecayFunc
    simp
  · norm_num

/-- The output-recording loop of `train()` (lines 510-535), with the output
arrays as functions updated the way `jnp.ndarray.at[...].set` produces new
arrays. `p0`, `i0`, `e0` are the uninitialized `jnp.empty` buffers;
`imbStart`, `errStart` are the epoch-0 DII and error computed from the
initial weights; `paramsSeq`, `imbSeq`, `errSeq` are the per-epoch values
returned by `_train_epoch`. The epoch-`m` iteration performs, exactly as the
source does,
`params_output = params_output.at[m].set(params_now)`,
`imbs_output = imbs_output.at[m].set(imb_now)`, and then the line
`errors_output = imbs_output.at[m].set(error_now)` — reading from
`imbs_output`, not from `errors_output`. -/
def trainRecordLoop (P : Type) (p0 : ℕ → P) (i0 e0 : ℕ → ℝ) (initParams : P)
    (imbStart errStart : ℝ) (paramsSeq : ℕ → P) (imbSeq errSeq : ℕ → ℝ) :
    ℕ → (ℕ → P) × (ℕ → ℝ) × (ℕ → ℝ)
  | 0 => (Function.update p0 0 initParams, Function.update i0 0 imbStart,
      Function.update e0 0 errStart)
  | m + 1 =>
      let st := trainRecordLoop P p0 i0 e0 initParams imbStart errStart
        paramsSeq imbSeq errSeq m
      let inew := Function.update st.2.1 (m + 1) (imbSeq (m + 1))
      (Function.update st.1 (m + 1) (paramsSeq (m + 1)), inew,
        Function.update inew (m + 1) (errSeq (m + 1)))

/-- Entry 0 of the imbalance output array is never touched after
initialization. -/
theorem trainRecordLoop_imbs_zero (P : Type) (p0 : ℕ → P) (i0 e0 : ℕ → ℝ)
    (initParams : P) (imbStart errStart : ℝ) (paramsSeq : ℕ → P)
    (imbSeq errSeq : ℕ → ℝ) (m : ℕ) :
    (trainRecordLoop P p0 i0 e0 initParams imbStart errStart paramsSeq imbSeq
        errSeq m).2.1 0 = imbStart := by
  induction m with
  | zero => simp [trainRecordLoop]
  | succ k ih =>
      unfold trainRecordLoop
      simp only
      rw [Function.update_noteq (by omega)]
      exact ih

/-- Claim C6 (code bug): after any `num_epochs ≥ 1` epochs, entry 0 of the
errors array returned by `train()` holds the initial DII value `imb_start`,
not the initial standard error `err_start`: line 535 rebuilds
`errors_output` from `imbs_output`, so every error entry except the final
epoch's is clobbered with a DII value. -/
theorem train_errors_output_clobbered (P : Type) (p0 : ℕ → P) (i0 e0 : ℕ → ℝ)
    (initParams : P) (imbStart errStart : ℝ) (paramsSeq : ℕ → P)
    (imbSeq errSeq : ℕ → ℝ) (numEpochs : ℕ) (hE : 1 ≤ numEpochs) :
    (trainRecordLoop P p0 i0 e0 initParams imbStart errStart paramsSeq imbSeq
        errSeq numEpochs).2.2 0 = imbStart := by
  obtain ⟨m, rfl⟩ : ∃ m, numEpochs = m + 1 := ⟨numEpochs - 1, by omega⟩
  unfold trainRecordLoop
  simp only
  rw [Function.update_noteq (by omega), Function.update_noteq (by omega)]
  exact trainRecordLoop_imbs_zero P p0 i0 e0 initParams imbStart errStart
    paramsSeq imbSeq errSeq m

/-- Witness for claim C6: one epoch, initial DII 5 and initial error 7; the
returned errors array holds 5 at entry 0. -/
theorem train_errors_output_clobbered_witness :
    (trainRecordLoop ℝ (fun _ => 0) (fun _ => 0) (fun _ => 0) 0 5 7
        (fun _ => 0) (fun _ => 0) (fun _ => 0) 1).2.2 0 = 5 :=
  train_errors_output_clobbered ℝ (fun _ => 0) (fun _ => 0) (fun _ => 0) 0 5 7
    (fun _ => 0) (fun _ => 0) (fun _ => 0) 1 (by norm_num)

/-- The `DiffImbalance` attributes read by `_init_optimizer` and `train`:
the optimizer/training state (`None` before the first `train()` call) and the
initial weights. -/
structure DIObjState (P : Type) where
  state : Option (TrainStateM P)
  initParams : P

/-- The parameter vector `_init_optimizer` (line 628) hands to
`TrainState.create`: `self.init_params if self.state is None else
self.state.params`. -/
def optimizerInitParams (P : Type) (d : DIObjState P) : P :=
  match d.state with
  | Option.none => d.initParams
  | some s => s.params

/-- Embeds `_init_optimizer` (lines 598-630): rebuilds the training state with a
fresh step counter and the parameter vector above (the optax optimizer
internals are external). -/
def initOptimizerModel (P : Type) (d : DIObjState P) : DIObjState P :=
  { d with state := some ⟨optimizerInitParams P d, 0⟩ }

/-- Embeds `train()` (lines 496-540) at the state level: initialize the optimizer,
then run `num_epochs` epochs of `batches_per_epoch` sequential `_train_step`
updates on `self.state`. -/
def trainModel (P : Type) (upd : P → ℕ → P) (numEpochs batchesPerEpoch : ℕ)
    (d : DIObjState P) : DIObjState P :=
  let d0 := initOptimizerModel P d
  { d0 with
    state := some ((trainStepModel P upd)^[numEpochs * batchesPerEpoch]
      ⟨optimizerInitParams P d, 0⟩) }

/-- Claim C10: on a freshly constructed object (`state = None`) the first
`train()` initializes the optimizer with `init_params`; the call leaves a
non-`None` state holding the trained weights, so a subsequent `train()`
initializes the optimizer with those weights rather than `init_params`. -/
theorem train_resumes_from_previous_state (P : Type) (upd : P → ℕ → P)
    (numEpochs batchesPerEpoch : ℕ) (d : DIObjState P)
    (hfresh : d.state = Option.none) :
    optimizerInitParams P d = d.initParams ∧
      (trainModel P upd numEpochs batchesPerEpoch d).state
        = some ((trainStepModel P upd)^[numEpochs * batchesPerEpoch]
            ⟨d.initParams, 0⟩) ∧
      optimizerInitParams P (trainModel P upd numEpochs batchesPerEpoch d)
        = ((trainStepModel P upd)^[numEpochs * batchesPerEpoch]
            ⟨d.initParams, 0⟩).params := by
  have hip : optimizerInitParams P d = d.initParams := by
    unfold optimizerInitParams
    rw [hfresh]
  have h2 : (trainModel P upd numEpochs batchesPerEpoch d).state
      = some ((trainStepModel P upd)^[numEpochs * batchesPerEpoch]
          ⟨d.initParams, 0⟩) := by
    unfold trainModel
    rw [hip]
  refine ⟨hip, h2, ?_⟩
  unfold optimizerInitParams
  rw [h2]

/-- Witness for claim C10 on a fresh object with `init_params = 3`,
identity update, one epoch of one batch. -/
theorem train_resumes_witness :
    optimizerInitParams ℝ ⟨Option.none, 3⟩ = (3 : ℝ) ∧
      (trainModel ℝ (fun w _ => w) 1 1 ⟨Option.none, 3⟩).state
        = some ((trainStepModel ℝ (fun w _ => w))^[1 * 1] ⟨3, 0⟩) ∧
      optimizerInitParams ℝ (trainModel ℝ (fun w _ => w) 1 1 ⟨Option.none, 3⟩)
        = ((trainStepModel ℝ (fun w _ => w))^[1 * 1]
            (⟨3, 0⟩ : TrainStateM ℝ)).params :=
  train_resumes_from_previous_state ℝ (fun w _ => w) 1 1 ⟨Option.none, 3⟩ rfl

/-- The row count of the distance/rank matrices fixed in
`DiffImbalance.__init__` (lines 180-207): `int(0.5 * ratio_rows_columns *
n_points)` when `compute_error` is set, else the explicit `num_points_rows`
subsample size, else all `n_points`. -/
def diNRows (nPoints : ℕ) (computeError : Bool) (ratioRowsColumns : ℚ)
    (numPointsRows : Option ℕ) : ℕ :=
  if computeError then (⌊(1 / 2 : ℚ) * ratioRowsColumns * nPoints⌋).toNat
  else match numPointsRows with
    | some m => m
    | Option.none => nPoints

/-- The eager validation performed by `DiffImbalance.__init__` (lines
166-264), `true` when construction completes without raising: equal sample
counts; no explicit row subsample together with `compute_error`; at least
`batches_per_epoch` rows; `k` bounds present when point-adaptive smoothing is
requested; `k_init` (clamped at 100) at least `k_final` whenever `k_init` is
given, and `lambda_init` at least `lambda_final` whenever `lambda_init` is
given (comparison against an absent bound is a Python `TypeError`, hence also
a construction failure). -/
def diInitChecks (nA nB batchesPerEpoch : ℕ) (pointAdaptLambda : Bool)
    (kInit kFinal : Option ℕ) (lambdaInit lambdaFinal : Option ℚ)
    (computeError : Bool) (ratioRowsColumns : ℚ)
    (numPointsRows : Option ℕ) : Bool :=
  decide (nA = nB) &&
  (!computeError || numPointsRows.isNone) &&
  decide (batchesPerEpoch ≤ diNRows nA computeError ratioRowsColumns
    numPointsRows) &&
  (!pointAdaptLambda || (kInit.isSome && kFinal.isSome)) &&
  (match kInit with
   | Option.none => true
   | some ki =>
       match kFinal with
       | Option.none => false
       | some kf => decide (kf ≤ min ki 100)) &&
  (match lambdaInit with
   | Option.none => true
   | some li =>
       match lambdaFinal with
       | Option.none => false
       | some lf => decide (lf ≤ li))

/-- The three smoothing variants of section 4.6. -/
inductive LambdaVariant
  | pointAdapt
  | adaptGlobal
  | fixedGlobal
deriving DecidableEq

/-- The `lambda_method` selection at the end of `DiffImbalance.__init__`
(lines 275-280): point-adaptive if requested, else the global adaptive scheme
when both `k` bounds are present, else the fixed cosine-decay scheme when
both `lambda` bounds are present; no branch leaves the attribute unset. -/
def selectLambdaMethod (pointAdaptLambda : Bool) (kInit kFinal : Option ℕ)
    (lambdaInit lambdaFinal : Option ℚ) : Option LambdaVariant :=
  if pointAdaptLambda then some LambdaVariant.pointAdapt
  else if kInit.isSome && kFinal.isSome then some LambdaVariant.adaptGlobal
  else if lambdaInit.isSome && lambdaFinal.isSome then
    some LambdaVariant.fixedGlobal
  else Option.none

/-- Counterexample to claim C7 as stated: 3 rows and `batches_per_epoch = 2`
(which does not divide 3, with every other argument at its default) passes
every constructor check — no configuration error is raised at construction. -/
theorem init_divisibility_counterexample :
    diInitChecks 3 3 2 false (some 1) (some 1) Option.none Option.none false
        1 Option.none = true
      ∧ ¬ (2 ∣ 3) := by
  constructor
  · rfl
  · decide

/-- Claim C7 (amended): `DiffImbalance.__init__` does not validate that
`batches_per_epoch` divides the row count; with the default smoothing
arguments it succeeds whenever `batches_per_epoch ≤ nrows`, divisible or not
(the non-divisibility failure only surfaces later, when `_train_epoch` splits
the shuffled indices). -/
theorem init_no_divisibility_check (n b : ℕ) (hb : b ≤ n) :
    diInitChecks n n b false (some 1) (some 1) Option.none Option.none false
      1 Option.none = true := by
  unfold diInitChecks diNRows
  simp [hb]

/-- Witness for claim C7 (amended) at 3 rows, 2 batches per epoch. -/
theorem init_no_divisibility_check_witness :
    diInitChecks 3 3 2 false (some 1) (some 1) Option.none Option.none false
      1 Option.none = true :=
  init_no_divisibility_check 3 2 (by norm_num)

/-- Counterexample to claim C8 as stated: with both smoothing sets fully
specified (`k_init = 2`, `k_final = 1`, `lambda_init = 1`,
`lambda_final = 0`) construction passes every check — no validation error
is raised — and the k-based global adaptive variant is silently selected. -/
theorem init_both_smoothing_sets_counterexample :
    diInitChecks 4 4 1 false (some 2) (some 1) (some 1) (some 0) false
        1 Option.none = true
      ∧ selectLambdaMethod false (some 2) (some 1) (some 1) (some 0)
        = some LambdaVariant.adaptGlobal := by
  constructor
  · decide
  · rfl

/-- Claim C8 (amended): when more than one smoothing-configuration set is
fully specified, `DiffImbalance.__init__` raises no error: provided each
set's own bounds are ordered (and the other checks hold), construction
succeeds and the constructor silently selects by priority — point-adaptive if
requested, else the k-based adaptive scheme, the lambda bounds being
ignored. -/
theorem multiple_smoothing_sets_silently_resolved (n b ki kf : ℕ)
    (li lf : ℚ) (hb : b ≤ n) (hk : kf ≤ min ki 100) (hl : lf ≤ li) :
    diInitChecks n n b false (some ki) (some kf) (some li) (some lf) false
        1 Option.none = true
      ∧ selectLambdaMethod false (some ki) (some kf) (some li) (some lf)
        = some LambdaVariant.adaptGlobal := by
  constructor
  · unfold diInitChecks diNRows
    simp [hb, hk, hl]
  · rfl

/-- Witness for claim C8 (amended) at `k_init = 2 ≥ k_final = 1`,
`lambda_init = 1 ≥ lambda_final = 0`. -/
theorem multiple_smoothing_sets_witness :
    diInitChecks 4 4 1 false (some 2) (some 1) (some 1) (some 0) false
        1 Option.none = true
      ∧ selectLambdaMethod false (some 2) (some 1) (some 1) (some 0)
        = some LambdaVariant.adaptGlobal :=
  multiple_smoothing_sets_silently_resolved 4 1 2 1 1 0 (by norm_num)
    (by norm_num) (by norm_num)
